import Mathlib

/-!
Shallow embedding of the lifegame program (`main.go`) and proofs about it.

The Go program simulates Conway's Game of Life on a toroidal grid.  Go
machine integers are modelled as `Int` (all values involved are tiny, so
64-bit overflow never matters), Go slices as `List`, Go's `%` operator as
`Int.tmod` (Go uses truncated division), a Go function returning `error`
as `Except String` (or `GoResult`), and a Go runtime panic (index out of
range) as a `none` / `GoResult.crash` outcome.  Mutation is modelled by
returning the updated value.
-/

namespace Lifegame

/-- Outcome of a Go function that can return an error value or abort with a
runtime panic (e.g. an index-out-of-range slice access).  `crash` models the
runtime panic. -/
inductive GoResult (α : Type) where
  | ok : α → GoResult α
  | err : String → GoResult α
  | crash : GoResult α
deriving DecidableEq

/-- Embeds `type Field struct ... cs [][]bool; w, h int ...`. -/
structure Field where
  cs : List (List Bool)
  w : Int
  h : Int
deriving DecidableEq

/-- Go slice read `l[i]`: `none` models the index-out-of-range panic. -/
def sliceGet {α : Type} (l : List α) (i : Int) : Option α :=
  if i < 0 then none else l.get? i.toNat

/-- Embeds `NewField(h, w int)`: an `h × w` grid of dead cells.
`make([][]bool, h)` panics for `h < 0`; the inner `make([]bool, w)` runs once
per row, so it panics for `w < 0` exactly when there is at least one row
(`h ≥ 1`).  `crash` models those runtime panics. -/
def NewField (h w : Int) : GoResult Field :=
  if h < 0 then .crash
  else if 1 ≤ h ∧ w < 0 then .crash
  else .ok { cs := List.replicate h.toNat (List.replicate w.toNat false), w := w, h := h }

/-- The field value a successful `NewField(n, m)` call produces (spec-side
abbreviation for non-negative sizes). -/
def blankField (n m : Nat) : Field :=
  { cs := List.replicate n (List.replicate m false), w := (m : Int), h := (n : Int) }

/-- Embeds `Field.Set`: rejects out-of-range writes with the error
`"out of field"`, otherwise updates the cell.  Mutation is modelled by
returning the updated field. -/
def Field.Set (f : Field) (r c : Int) (b : Bool) : Except String Field :=
  if r < 0 ∨ f.h ≤ r ∨ c < 0 ∨ f.w ≤ c then .error "out of field"
  else .ok { f with cs := f.cs.set r.toNat ((f.cs.getD r.toNat []).set c.toNat b) }

/-- Embeds `Field.Alive`: wraps the indices by `(x + size) % size` (Go `%` is
truncated division, i.e. `Int.tmod`) and reads the cell.  `none` models the
runtime panic when the wrapped index is still out of range. -/
def Field.Alive (f : Field) (r c : Int) : Option Bool :=
  match sliceGet f.cs ((r + f.h).tmod f.h) with
  | none => none
  | some row => sliceGet row ((c + f.w).tmod f.w)

/-- The nine `(i, j)` pairs visited by the nested `for` loops of
`Field.NextGen`, in loop order. -/
def loopPairs : List (Int × Int) :=
  [(-1,-1),(-1,0),(-1,1),(0,-1),(0,0),(0,1),(1,-1),(1,0),(1,1)]

/-- The loop body of `Field.NextGen`: counts the alive neighbors.  The pair
`(0, 0)` is skipped by the `i != 0 || j != 0` test without evaluating
`Alive` (Go `&&` short-circuits); any panic inside `Alive` propagates. -/
def Field.countAlive (f : Field) (r c : Int) : List (Int × Int) → Option Nat
  | [] => some 0
  | (i, j) :: rest =>
    if i = 0 ∧ j = 0 then f.countAlive r c rest
    else match f.Alive (r + i) (c + j) with
      | none => none
      | some b => match f.countAlive r c rest with
        | none => none
        | some k => some (k + if b then 1 else 0)

/-- Embeds `Field.NextGen`: the result of
`alive == 3 || alive == 2 && f.Alive(r, c)` with Go's short-circuit
evaluation (`f.Alive(r, c)` runs only when `alive == 2`). -/
def Field.NextGen (f : Field) (r c : Int) : Option Bool :=
  match f.countAlive r c loopPairs with
  | none => none
  | some alive =>
    if alive = 3 then some true
    else if alive = 2 then f.Alive r c
    else some false

/-- Embeds `type Life struct ... cur, next *Field; gen int ...`. -/
structure Life where
  cur : Field
  next : Field
  gen : Int
deriving DecidableEq

/-- Embeds `NewLife(h, w int, init [][]bool)`.  Go first constructs the two
`NewField(h, w)` buffers (any panic there happens before the size check),
then evaluates `len(init) != h || len(init[0]) != w` left to right with
short-circuit, so when `len(init) == h` holds and `init` is empty,
`init[0]` panics (`GoResult.crash`); on success `cur.cs` is replaced by
`init`. -/
def NewLife (h w : Int) (init : List (List Bool)) : GoResult Life :=
  match NewField h w with
  | .ok cur =>
    match NewField h w with
    | .ok next =>
      if (init.length : Int) ≠ h then .err "Wrong init size"
      else match init with
        | [] => .crash
        | r0 :: _ =>
          if (r0.length : Int) ≠ w then .err "Wrong init size"
          else .ok { cur := { cur with cs := init }, next := next, gen := 0 }
    | .err e => .err e
    | .crash => .crash
  | .err e => .err e
  | .crash => .crash

/-- Ignore the `error` result of `Field.Set`, as the loop body of
`Life.Next` does (it discards the returned error). -/
def Field.setIgnore (f : Field) (r c : Int) (b : Bool) : Field :=
  match f.Set r c b with
  | .ok f2 => f2
  | .error _ => f

/-- Inner loop of `Life.Next` over one row: `l.next.Set(i, j, l.cur.NextGen(i, j))`
for each column index `j`; the argument `NextGen` is evaluated first (a panic
propagates), the `Set` error is ignored. -/
def writeRow (cur : Field) (fld : Field) (i : Nat) : List Nat → Option Field
  | [] => some fld
  | j :: rest =>
    match cur.NextGen (i : Int) (j : Int) with
    | none => none
    | some b => writeRow cur (fld.setIgnore (i : Int) (j : Int) b) i rest

/-- Outer loop of `Life.Next` over the rows of `l.cur.cs` (`for i, r := range
l.cur.cs`), carrying the running row index `i`. -/
def writeRows (cur : Field) (fld : Field) (i : Nat) : List (List Bool) → Option Field
  | [] => some fld
  | r :: rest =>
    match writeRow cur fld i (List.range r.length) with
    | none => none
    | some fld2 => writeRows cur fld2 (i + 1) rest

/-- Embeds `Life.Next`: fills `l.next` with the next generation of `l.cur`,
then `l.cur = l.next; l.next = NewField(l.cur.w, l.cur.h); l.gen++`.
Note the Go code passes `l.cur.w` as the *height* argument of `NewField`.
`none` models a runtime panic, either inside the loop or in the final
`NewField` allocation. -/
def Life.Next (l : Life) : Option Life :=
  match writeRows l.cur l.next 0 l.cur.cs with
  | none => none
  | some cur2 =>
    match NewField cur2.w cur2.h with
    | .ok nf => some { cur := cur2, next := nf, gen := l.gen + 1 }
    | .err _ => none
    | .crash => none

/-- Embeds `bytesToBool`: a byte is alive iff it is `'o'` (byte value 111). -/
def bytesToBool (line : List Nat) : List Bool :=
  line.map (fun c => c = 111)

/-- Embeds one `reader.ReadBytes('\n')` call on the remaining buffer: returns
the bytes up to and including the first newline (byte 10) together with the
rest of the buffer, or `none` when no newline is left (the `io.EOF` case, in
which the Go code discards the partial data). -/
def readLine : List Nat → Option (List Nat × List Nat)
  | [] => none
  | b :: bs =>
    if b = 10 then some ([b], bs)
    else match readLine bs with
      | none => none
      | some (l, r) => some (b :: l, r)

/-- The line-reading loop of `NewLifeFromFile`: repeatedly `ReadBytes('\n')`
until `io.EOF` (which `break`s, silently dropping any unterminated partial
line), rejecting any line whose length differs from `colsize`. -/
def collectRows (colsize : Nat) (buf : List Nat) : GoResult (List (List Bool)) :=
  match hrl : readLine buf with
  | none => .ok []
  | some (l, rest) =>
    if l.length ≠ colsize then .err "column size is not appropriate"
    else match collectRows colsize rest with
      | .ok rows => .ok (bytesToBool l :: rows)
      | .err e => .err e
      | .crash => .crash
termination_by buf.length
decreasing_by
  have key : ∀ (bf lf rf : List Nat), readLine bf = some (lf, rf) → rf.length < bf.length := by
    intro bf
    induction bf with
    | nil => intro lf rf h; simp [readLine] at h
    | cons b bs ih =>
      intro lf rf h
      simp only [readLine] at h
      split at h
      · injection h with h1
        injection h1 with _ h2
        subst h2
        simp
      · cases hr2 : readLine bs with
        | none => rw [hr2] at h; cases h
        | some p =>
          obtain ⟨l2, r2⟩ := p
          rw [hr2] at h
          injection h with h1
          injection h1 with _ h2
          subst h2
          have := ih l2 r2 hr2
          simp only [List.length_cons]
          omega
  exact key buf l rest hrl

/-- Embeds the pure part of `NewLifeFromFile` (everything after
`ioutil.ReadFile` succeeds, operating on the file's bytes): read the first
line (failing with the `io.EOF` error when there is none), take its
terminator-inclusive length as `colsize`, collect the remaining lines, and
hand the rows to `NewLife`. -/
def NewLifeFromBytes (buf : List Nat) : GoResult Life :=
  match readLine buf with
  | none => .err "EOF"
  | some (line, rest) =>
    let colsize := line.length
    let firstRow := bytesToBool line
    match collectRows colsize rest with
    | .ok rows =>
      let init := firstRow :: rows
      NewLife (init.length : Int) (colsize : Int) init
    | .err e => .err e
    | .crash => .crash

/-- The spec's Field invariant (§3): positive dimensions, exactly `h` rows,
every row of length exactly `w`. -/
def Field.WF (f : Field) : Prop :=
  0 < f.h ∧ 0 < f.w ∧ (f.cs.length : Int) = f.h ∧ ∀ row ∈ f.cs, (row.length : Int) = f.w

instance (f : Field) : Decidable f.WF := by
  unfold Field.WF
  exact inferInstance

/-- Direct (non-wrapping) cell read, used to state properties; out-of-range
reads default to `false`. -/
def Field.cellAt (f : Field) (r c : Int) : Bool :=
  (f.cs.getD r.toNat []).getD c.toNat false

/-- Same as `Field.cellAt` with `Nat` indices. -/
def Field.cellN (f : Field) (i j : Nat) : Bool :=
  (f.cs.getD i []).getD j false

/-- The field records dimensions `n × m` and its cell array has exactly that
shape. -/
def Field.ShapeN (f : Field) (n m : Nat) : Prop :=
  f.h = (n : Int) ∧ f.w = (m : Int) ∧ f.cs.length = n ∧ ∀ row ∈ f.cs, row.length = m

namespace Spec

/-- The spec's cell read (§4.1 `isAlive`): "the effective index is
`((row mod height) + height) mod height` (and analogously for column)". -/
def isAlive (f : Field) (r c : Int) : Bool :=
  f.cellAt ((r.tmod f.h + f.h).tmod f.h) ((c.tmod f.w + f.w).tmod f.w)

/-- The 8 neighbor offsets (the cell itself excluded). -/
def nbrOffsets : List (Int × Int) :=
  [(-1,-1),(-1,0),(-1,1),(0,-1),(0,1),(1,-1),(1,0),(1,1)]

/-- The spec's neighbor count (§4.1 `willBeAliveNext`): "count alive cells
among the 8 wraparound neighbors (excluding the cell itself)". -/
def neighborCount (f : Field) (r c : Int) : Nat :=
  (nbrOffsets.filter (fun p => isAlive f (r + p.1) (c + p.2))).length

/-- The spec's transition rule (§4.1): "the cell is alive next generation iff
the neighbor count is exactly 3, or the neighbor count is exactly 2 and the
cell is currently alive". -/
def willBeAliveNext (f : Field) (r c : Int) : Bool :=
  neighborCount f r c = 3 || (neighborCount f r c = 2 && isAlive f r c)

end Spec

/-- Rectangular grid of booleans given by a coordinate function. -/
def mkGrid (h w : Nat) (f : Nat → Nat → Bool) : List (List Bool) :=
  (List.range h).map (fun i => (List.range w).map (fun j => f i j))

/-- The 6 alive cells of the beacon pattern used as initial state. -/
def beaconCellsA : List (Int × Int) :=
  [(1,1),(1,2),(2,1),(3,4),(4,3),(4,4)]

/-- The 8 alive cells of the beacon's other phase (two full 2×2 blocks). -/
def beaconCellsB : List (Int × Int) :=
  [(1,1),(1,2),(2,1),(2,2),(3,3),(3,4),(4,3),(4,4)]

/-- Membership predicate of the 6-cell beacon phase. -/
def beaconA (x y : Int) : Bool :=
  decide ((x, y) ∈ beaconCellsA)

/-- Membership predicate of the 8-cell beacon phase. -/
def beaconB (x y : Int) : Bool :=
  decide ((x, y) ∈ beaconCellsB)

/-- One Game-of-Life step of an (infinite-plane) boolean pattern, used as an
intermediate, size-independent description of the beacon dynamics. -/
def intStep (p : Int → Int → Bool) (i j : Int) : Bool :=
  let cnt := (Spec.nbrOffsets.filter (fun q => p (i + q.1) (j + q.2))).length
  cnt = 3 || (cnt = 2 && p i j)

/-- A text buffer made of newline-terminated lines: each line's content is
followed by the terminator byte 10. -/
def linesJoin (ls : List (List Nat)) : List Nat :=
  (ls.map (fun l => l ++ [10])).join

/-- Forget the error/crash distinction of a `GoResult`. -/
def GoResult.toOption {α : Type} : GoResult α → Option α
  | .ok a => some a
  | .err _ => none
  | .crash => none

/-- A 4×5 pattern holding a 2×2 still-life block in rows 1–2, columns 3–4. -/
def exGrid45 : List (List Bool) :=
  mkGrid 4 5 (fun i j => decide ((i = 1 ∨ i = 2) ∧ (j = 3 ∨ j = 4)))

/-- The `n × n` grid holding the 6-cell beacon phase. -/
def beaconGrid (n : Nat) : List (List Bool) :=
  mkGrid n n (fun i j => beaconA i j)

/-- The `n × n` grid holding the 8-cell beacon phase. -/
def beaconGridB (n : Nat) : List (List Bool) :=
  mkGrid n n (fun i j => beaconB i j)

/-! ## Theorems -/

/-- Go's truncated remainder by a positive divisor exceeds the negated
divisor. -/
theorem tmod_gt_neg (a : Int) {b : Int} (hb : 0 < b) : -b < a.tmod b := by
  rcases le_or_lt 0 a with ha | ha
  · have := Int.tmod_nonneg b ha
    omega
  · have hneg : (-a).tmod b = -(a.tmod b) := by
      rw [Int.tmod_def, Int.tmod_def, Int.neg_tdiv]
      ring
    have h2 : (-a).tmod b < b := Int.tmod_lt_of_pos _ hb
    have h3 : 0 ≤ (-a).tmod b := Int.tmod_nonneg b (by omega)
    omega

/-- The spec's double-wrap `((x mod h) + h) mod h` (with truncated `mod`)
equals the Euclidean remainder. -/
theorem tmod_wrap (x h : Int) (hh : 0 < h) : (x.tmod h + h).tmod h = x.emod h := by
  have h1 : 0 ≤ x.tmod h + h := by
    have := tmod_gt_neg x hh
    omega
  rw [Int.tmod_eq_emod h1 (le_of_lt hh), Int.tmod_def]
  have h2 : x - h * x.tdiv h + h = x + h * (1 - x.tdiv h) := by ring
  rw [h2, Int.add_mul_emod_self_left]
  rfl

/-- The single wrap `(x + h) % h` computed by `Field.Alive` equals the
Euclidean remainder as soon as `x ≥ -h`. -/
theorem tmod_shift (x h : Int) (hh : 0 < h) (hx : -h ≤ x) : (x + h).tmod h = x.emod h := by
  rw [Int.tmod_eq_emod (by omega) (le_of_lt hh)]
  have h2 : x + h = x + h * 1 := by ring
  rw [h2, Int.add_mul_emod_self_left]
  rfl

/-- On a well-formed field, `Alive` succeeds for any indices at least `-h`
resp. `-w`, and reads the cell at the Euclidean remainders. -/
theorem alive_eq {f : Field} (hf : f.WF) {r c : Int} (hr : -f.h ≤ r) (hc : -f.w ≤ c) :
    f.Alive r c = some (f.cellAt (r.emod f.h) (c.emod f.w)) := by
  obtain ⟨hh, hw, hlen, hrows⟩ := hf
  have hr1 : (r + f.h).tmod f.h = r.emod f.h := tmod_shift r f.h hh hr
  have hc1 : (c + f.w).tmod f.w = c.emod f.w := tmod_shift c f.w hw hc
  have hr0 : 0 ≤ r.emod f.h := Int.emod_nonneg r (by omega)
  have hrlt : r.emod f.h < f.h := Int.emod_lt_of_pos r hh
  have hc0 : 0 ≤ c.emod f.w := Int.emod_nonneg c (by omega)
  have hclt : c.emod f.w < f.w := Int.emod_lt_of_pos c hw
  have hltn : (r.emod f.h).toNat < f.cs.length := by omega
  unfold Field.Alive
  rw [hr1, hc1]
  unfold sliceGet
  rw [if_neg (by omega), List.get?_eq_get hltn]
  have hmem : f.cs.get ⟨(r.emod f.h).toNat, hltn⟩ ∈ f.cs := List.get_mem f.cs _ _
  have hrowlen := hrows _ hmem
  have hltc : (c.emod f.w).toNat < (f.cs.get ⟨(r.emod f.h).toNat, hltn⟩).length := by omega
  dsimp only
  rw [if_neg (by omega), List.get?_eq_get hltc]
  unfold Field.cellAt
  have hout : f.cs.getD (r.emod f.h).toNat [] = f.cs.get ⟨(r.emod f.h).toNat, hltn⟩ := by
    rw [List.getD_eq_get?, List.get?_eq_get hltn]
    rfl
  rw [hout, List.getD_eq_get?, List.get?_eq_get hltc]
  rfl

/-- The spec's `isAlive` lookup reduces to the cell at the Euclidean
remainders of the indices. -/
theorem spec_isAlive_eq {f : Field} (hh : 0 < f.h) (hw : 0 < f.w) (x y : Int) :
    Spec.isAlive f x y = f.cellAt (x.emod f.h) (y.emod f.w) := by
  unfold Spec.isAlive
  rw [tmod_wrap x f.h hh, tmod_wrap y f.w hw]

/-- On a well-formed field, `Alive` agrees with the spec's `isAlive`. -/
theorem alive_eq_spec {f : Field} (hf : f.WF) {x y : Int} (hx : -f.h ≤ x) (hy : -f.w ≤ y) :
    f.Alive x y = some (Spec.isAlive f x y) := by
  rw [alive_eq hf hx hy, spec_isAlive_eq hf.1 hf.2.1]

/-- The counting loop of `NextGen` over any list of small offsets counts the
offsets kept by the `i != 0 || j != 0` test whose wrapped cell is alive. -/
theorem countAlive_offsets {f : Field} (hf : f.WF) {r c : Int}
    (hr0 : 0 ≤ r) (hrh : r < f.h) (hc0 : 0 ≤ c) (hcw : c < f.w)
    (ps : List (Int × Int)) (hps : ∀ p ∈ ps, -1 ≤ p.1 ∧ p.1 ≤ 1 ∧ -1 ≤ p.2 ∧ p.2 ≤ 1) :
    f.countAlive r c ps =
      some ((ps.filter
        (fun p => !decide (p.1 = 0 ∧ p.2 = 0) && Spec.isAlive f (r + p.1) (c + p.2))).length) := by
  have hh := hf.1
  have hw := hf.2.1
  induction ps with
  | nil => rfl
  | cons p rest ih =>
    obtain ⟨i, j⟩ := p
    have hbnd := hps (i, j) (by simp)
    simp only at hbnd
    have hrest := fun q hq => hps q (List.mem_cons_of_mem _ hq)
    by_cases hz : i = 0 ∧ j = 0
    · simp only [Field.countAlive, if_pos hz, List.filter_cons]
      rw [ih hrest]
      simp [hz]
    · have ha := alive_eq_spec hf (x := r + i) (y := c + j) (by omega) (by omega)
      simp only [Field.countAlive, if_neg hz, ha, List.filter_cons]
      rw [ih hrest]
      cases hb : Spec.isAlive f (r + i) (c + j) <;> simp [hz, hb]

/-- The counting loop of `NextGen` computes the spec's neighbor count for any
in-bounds cell of a well-formed field. -/
theorem countAlive_eq {f : Field} (hf : f.WF) {r c : Int}
    (hr0 : 0 ≤ r) (hrh : r < f.h) (hc0 : 0 ≤ c) (hcw : c < f.w) :
    f.countAlive r c loopPairs = some (Spec.neighborCount f r c) := by
  rw [countAlive_offsets hf hr0 hrh hc0 hcw loopPairs (by decide)]
  congr 1

/-- Adding the modulus on the left of a Euclidean remainder changes nothing. -/
theorem emod_add_self (x h : Int) : (x + h).emod h = x.emod h := by
  have h2 : x + h = x + h * 1 := by ring
  rw [h2]
  exact Int.add_mul_emod_self_left x h 1

/-- `NewField` succeeds on non-negative sizes. -/
theorem newField_pos {h w : Int} (hh : 0 ≤ h) (hw : 0 ≤ w) :
    NewField h w =
      .ok { cs := List.replicate h.toNat (List.replicate w.toNat false), w := w, h := h } := by
  unfold NewField
  rw [if_neg (by omega), if_neg (by omega)]

/-- `NewField` at `Nat`-cast sizes produces the blank field of that shape. -/
theorem newField_nat (n m : Nat) :
    NewField (n : Int) (m : Int) = .ok (blankField n m) := by
  rw [newField_pos (by omega) (by omega)]
  unfold blankField
  simp

/-- A well-formed field has shape `h.toNat × w.toNat`. -/
theorem wf_shape {f : Field} (hf : f.WF) : f.ShapeN f.h.toNat f.w.toNat := by
  obtain ⟨hh, hw, hlen, hrows⟩ := hf
  refine ⟨by omega, by omega, by omega, fun row hrow => ?_⟩
  have := hrows row hrow
  omega

/-- A field of positive shape is well-formed. -/
theorem shape_wf {f : Field} {n m : Nat} (hs : f.ShapeN n m) (hn : 0 < n) (hm : 0 < m) :
    f.WF := by
  obtain ⟨hh, hw, hlen, hrows⟩ := hs
  refine ⟨by omega, by omega, by omega, fun row hrow => ?_⟩
  have := hrows row hrow
  omega

/-- `cellAt` is `cellN` at the truncations of the indices. -/
theorem cellAt_eq_cellN (f : Field) (r c : Int) : f.cellAt r c = f.cellN r.toNat c.toNat :=
  rfl

/-- A successful in-bounds `Set` on a field of known shape: it returns `ok`,
preserves the shape, and changes exactly the addressed cell. -/
theorem set_ok {f : Field} {n m : Nat} (hs : f.ShapeN n m) {i j : Nat}
    (hi : i < n) (hj : j < m) (b : Bool) :
    ∃ f2, f.Set (i : Int) (j : Int) b = Except.ok f2 ∧ f2.ShapeN n m ∧
      ∀ i2 j2 : Nat, f2.cellN i2 j2 = if i2 = i ∧ j2 = j then b else f.cellN i2 j2 := by
  obtain ⟨hh, hw, hlen, hrows⟩ := hs
  have hno : ¬((i : Int) < 0 ∨ f.h ≤ (i : Int) ∨ (j : Int) < 0 ∨ f.w ≤ (j : Int)) := by
    rw [hh, hw]
    omega
  refine ⟨_, by rw [Field.Set, if_neg hno], ?_, ?_⟩
  · refine ⟨hh, hw, by simpa using hlen, fun row hrow => ?_⟩
    simp only [Int.toNat_natCast] at hrow
    rcases List.mem_or_eq_of_mem_set hrow with hmem | heq
    · exact hrows row hmem
    · subst heq
      rw [List.length_set]
      have hil : i < f.cs.length := by omega
      rw [List.getD_eq_get?, List.get?_eq_get hil]
      exact hrows _ (List.get_mem f.cs i hil)
  · intro i2 j2
    have hil : i < f.cs.length := by omega
    simp only [Field.cellN, Int.toNat_natCast]
    by_cases hii : i2 = i
    · subst hii
      rw [List.getD_eq_get? (l := f.cs.set _ _), List.get?_set_eq_of_lt _ (by omega)]
      simp only [Option.getD_some]
      by_cases hjj : j2 = j
      · subst hjj
        have hrl : j2 < (f.cs.getD i2 []).length := by
          rw [List.getD_eq_get?, List.get?_eq_get hil]
          have := hrows _ (List.get_mem f.cs i2 hil)
          simp only [Option.getD_some]
          omega
        rw [List.getD_eq_get? (l := (f.cs.getD i2 []).set _ _), List.get?_set_eq_of_lt _ (by omega)]
        simp
      · have hne : j ≠ j2 := fun hx => hjj hx.symm
        rw [List.getD_eq_get? (l := (f.cs.getD i2 []).set _ _), List.get?_set_ne _ _ hne,
          if_neg (fun hx => hjj hx.2), ← List.getD_eq_get?]
    · have hne : i ≠ i2 := fun hx => hii hx.symm
      rw [List.getD_eq_get? (l := f.cs.set _ _), List.get?_set_ne _ _ hne,
        if_neg (fun hx => hii hx.1), ← List.getD_eq_get?]

/-- `setIgnore` at an accepted in-bounds position updates exactly that cell. -/
theorem setIgnore_shape {f : Field} {n m : Nat} (hs : f.ShapeN n m) {i j : Nat}
    (hi : i < n) (hj : j < m) (b : Bool) :
    (f.setIgnore (i : Int) (j : Int) b).ShapeN n m ∧
      ∀ i2 j2 : Nat, (f.setIgnore (i : Int) (j : Int) b).cellN i2 j2 =
        if i2 = i ∧ j2 = j then b else f.cellN i2 j2 := by
  obtain ⟨f2, hset, hsh, hcells⟩ := set_ok hs hi hj b
  rw [Field.setIgnore, hset]
  exact ⟨hsh, hcells⟩

/-- `setIgnore` at a rejected out-of-bounds position leaves the field
untouched. -/
theorem setIgnore_oob {f : Field} {r c : Int}
    (h : r < 0 ∨ f.h ≤ r ∨ c < 0 ∨ f.w ≤ c) (b : Bool) : f.setIgnore r c b = f := by
  rw [Field.setIgnore, Field.Set, if_pos h]

/-- On a well-formed field, `NextGen` at an in-bounds cell returns exactly the
spec's transition rule. -/
theorem nextGen_eq_spec {f : Field} (hf : f.WF) {r c : Int}
    (hr0 : 0 ≤ r) (hrh : r < f.h) (hc0 : 0 ≤ c) (hcw : c < f.w) :
    f.NextGen r c = some (Spec.willBeAliveNext f r c) := by
  unfold Field.NextGen
  rw [countAlive_eq hf hr0 hrh hc0 hcw]
  dsimp only
  unfold Spec.willBeAliveNext
  by_cases h3 : Spec.neighborCount f r c = 3
  · simp [h3]
  · by_cases h2 : Spec.neighborCount f r c = 2
    · rw [if_neg h3, if_pos h2]
      rw [alive_eq_spec hf (by omega) (by omega)]
      simp [h3, h2]
    · simp [h3, h2]

/-- C1: for every well-formed `Field` and in-bounds cell `(r, c)`, `NextGen`
returns `true` exactly when the count of alive cells among the 8 toroidal
neighbors is 3, or it is 2 and the cell itself is alive.  `NextGen` is a pure
function of the field in this embedding (it returns only the `Option Bool`),
so it mutates nothing. -/
theorem nextGen_matches_rule (f : Field) (r c : Int) (hf : f.WF)
    (hr0 : 0 ≤ r) (hrh : r < f.h) (hc0 : 0 ≤ c) (hcw : c < f.w) :
    f.NextGen r c = some true ↔
      Spec.neighborCount f r c = 3 ∨
        (Spec.neighborCount f r c = 2 ∧ Spec.isAlive f r c = true) := by
  rw [nextGen_eq_spec hf hr0 hrh hc0 hcw]
  simp [Spec.willBeAliveNext]

/-- Witness for C1 at a concrete 2×2 field whose cell (0,0) has 2 alive
neighbors and is itself alive. -/
theorem nextGen_matches_rule_witness :
    (Field.mk [[true, true], [true, false]] 2 2).NextGen 0 0 = some true ↔
      Spec.neighborCount (Field.mk [[true, true], [true, false]] 2 2) 0 0 = 3 ∨
        (Spec.neighborCount (Field.mk [[true, true], [true, false]] 2 2) 0 0 = 2 ∧
          Spec.isAlive (Field.mk [[true, true], [true, false]] 2 2) 0 0 = true) :=
  nextGen_matches_rule (Field.mk [[true, true], [true, false]] 2 2) 0 0
    (by decide) (by decide) (by decide) (by decide) (by decide)

/-- C4 fails as stated: on the well-formed 2×1 field below, `Alive (-3) 0`
computes the row index `(-3 + 2) % 2 = -1` (Go's truncated `%`) and the
slice access panics, so `Alive` is not defined for arbitrarily negative
indices. -/
theorem alive_negative_index_crash :
    (Field.mk [[false], [false]] 1 2).WF ∧
      Field.Alive (Field.mk [[false], [false]] 1 2) (-3) 0 = none := by
  decide

/-- C4 (amended): on a well-formed field, for `row ≥ -height` and
`col ≥ -width`, `Alive` never fails, reads the cell at the effective index
`((row mod height) + height) mod height` (and analogously for the column),
and is periodic in both directions. -/
theorem alive_wraparound_amended (f : Field) (r c : Int) (hf : f.WF)
    (hr : -f.h ≤ r) (hc : -f.w ≤ c) :
    f.Alive r c =
        some (f.cellAt ((r.tmod f.h + f.h).tmod f.h) ((c.tmod f.w + f.w).tmod f.w))
      ∧ f.Alive (r + f.h) c = f.Alive r c
      ∧ f.Alive r (c + f.w) = f.Alive r c := by
  have hh := hf.1
  have hw := hf.2.1
  refine ⟨?_, ?_, ?_⟩
  · rw [alive_eq hf hr hc, tmod_wrap r f.h hh, tmod_wrap c f.w hw]
  · rw [alive_eq hf hr hc, alive_eq hf (by omega) hc, emod_add_self]
  · rw [alive_eq hf hr hc, alive_eq hf hr (by omega), emod_add_self]

/-- Witness for the amended C4 at a concrete 2×2 field and indices
`(-1, -2)`. -/
theorem alive_wraparound_amended_witness :
    Field.Alive (Field.mk [[true, false], [false, true]] 2 2) (-1) (-2) =
        some ((Field.mk [[true, false], [false, true]] 2 2).cellAt
          (((-1 : Int).tmod 2 + 2).tmod 2) (((-2 : Int).tmod 2 + 2).tmod 2))
      ∧ Field.Alive (Field.mk [[true, false], [false, true]] 2 2) (-1 + 2) (-2) =
          Field.Alive (Field.mk [[true, false], [false, true]] 2 2) (-1) (-2)
      ∧ Field.Alive (Field.mk [[true, false], [false, true]] 2 2) (-1) (-2 + 2) =
          Field.Alive (Field.mk [[true, false], [false, true]] 2 2) (-1) (-2) :=
  alive_wraparound_amended (Field.mk [[true, false], [false, true]] 2 2) (-1) (-2)
    (by decide) (by decide) (by decide)

/-- C8: on a well-formed field, `Set` rejects any out-of-bounds write with
the `"out of field"` error and returns no updated field (the grid is
unchanged: the caller keeps the original `f`), while an in-bounds write
succeeds and is read back unchanged by `Alive` at the same coordinates. -/
theorem set_bounds_roundtrip (f : Field) (r c : Int) (b : Bool) (hf : f.WF) :
    ((r < 0 ∨ f.h ≤ r ∨ c < 0 ∨ f.w ≤ c) → f.Set r c b = Except.error "out of field")
    ∧ (0 ≤ r → r < f.h → 0 ≤ c → c < f.w →
        ∃ f2, f.Set r c b = Except.ok f2 ∧ f2.Alive r c = some b) := by
  constructor
  · intro hout
    rw [Field.Set, if_pos hout]
  · intro hr0 hrh hc0 hcw
    have hs := wf_shape hf
    have hi : r.toNat < f.h.toNat := by omega
    have hj : c.toNat < f.w.toNat := by omega
    obtain ⟨f2, hset, hsh, hcells⟩ := set_ok hs hi hj b
    have hrc : ((r.toNat : Int), (c.toNat : Int)) = (r, c) := by
      simp only [Prod.mk.injEq]
      omega
    rw [Int.toNat_of_nonneg hr0, Int.toNat_of_nonneg hc0] at hset
    refine ⟨f2, hset, ?_⟩
    have hf2 : f2.WF := shape_wf hsh (by omega) (by omega)
    have hh2 : f2.h = f.h := by
      have := hsh.1
      omega
    have hw2 : f2.w = f.w := by
      have := hsh.2.1
      omega
    have her : r.emod f.h = r := Int.emod_eq_of_lt hr0 hrh
    have hec : c.emod f.w = c := Int.emod_eq_of_lt hc0 hcw
    rw [alive_eq hf2 (by omega) (by omega), hh2, hw2, her, hec,
      cellAt_eq_cellN, hcells r.toNat c.toNat, if_pos ⟨rfl, rfl⟩]

/-- Witness for C8 on a concrete 2×3 field: the out-of-bounds premise is
instantiated vacuously and the in-bounds write at (1, 2) is read back. -/
theorem set_bounds_roundtrip_witness :
    (((1 : Int) < 0 ∨ (Field.mk [[false, false, false], [false, false, false]] 3 2).h ≤ 1
        ∨ (2 : Int) < 0 ∨ (Field.mk [[false, false, false], [false, false, false]] 3 2).w ≤ 2) →
      (Field.mk [[false, false, false], [false, false, false]] 3 2).Set 1 2 true =
        Except.error "out of field")
    ∧ ((0 : Int) ≤ 1 → (1 : Int) < (Field.mk [[false, false, false], [false, false, false]] 3 2).h →
        (0 : Int) ≤ 2 → (2 : Int) < (Field.mk [[false, false, false], [false, false, false]] 3 2).w →
        ∃ f2, (Field.mk [[false, false, false], [false, false, false]] 3 2).Set 1 2 true =
            Except.ok f2 ∧ f2.Alive 1 2 = some true) :=
  set_bounds_roundtrip (Field.mk [[false, false, false], [false, false, false]] 3 2) 1 2 true
    (by decide)

/-- C5 fails as stated: `NewLife 2 1 [[false], [false, false]]` succeeds even
though the second row does not have the declared width 1 — only the first
row's length is checked. -/
theorem newLife_accepts_ragged_rows :
    (∃ l, NewLife 2 1 [[false], [false, false]] = .ok l)
    ∧ ¬(∀ row ∈ [[false], [false, false]], row.length = 1) :=
  ⟨⟨_, rfl⟩, by decide⟩

/-- C5 (amended): for `h ≥ 1` and `w ≥ 1`, `NewLife h w init` succeeds iff
`init` has exactly `h` rows and its *first* row has exactly `w` columns
(later rows are not validated); otherwise it fails with the
`"Wrong init size"` error. -/
theorem newLife_first_row_check (h w : Int) (init : List (List Bool))
    (hh : 1 ≤ h) (hw : 1 ≤ w) :
    ((∃ l, NewLife h w init = .ok l) ↔
      ((init.length : Int) = h ∧ ((init.headD []).length : Int) = w))
    ∧ (¬((init.length : Int) = h ∧ ((init.headD []).length : Int) = w) →
        NewLife h w init = .err "Wrong init size") := by
  have hnf : NewField h w =
      .ok { cs := List.replicate h.toNat (List.replicate w.toNat false), w := w, h := h } :=
    newField_pos (by omega) (by omega)
  by_cases hl : (init.length : Int) = h
  · cases init with
    | nil =>
      simp at hl
      omega
    | cons r0 rest =>
      by_cases hw0 : (r0.length : Int) = w
      · have hres : NewLife h w (r0 :: rest) =
            .ok { cur := { cs := r0 :: rest, w := w, h := h },
                  next := { cs := List.replicate h.toNat (List.replicate w.toNat false),
                            w := w, h := h },
                  gen := 0 } := by
          simp only [NewLife, hnf]
          rw [if_neg (fun hq => hq hl)]
          rw [if_neg (fun hq => hq hw0)]
        constructor
        · constructor
          · intro _
            exact ⟨hl, by simpa using hw0⟩
          · intro _
            exact ⟨_, hres⟩
        · intro hcon
          exact absurd ⟨hl, by simpa using hw0⟩ hcon
      · have hres : NewLife h w (r0 :: rest) = .err "Wrong init size" := by
          simp [NewLife, hnf, hl, hw0]
        constructor
        · rw [hres]
          simp only [List.headD_cons]
          constructor
          · intro ⟨l, hlq⟩
            cases hlq
          · intro ⟨_, hq⟩
            exact absurd hq hw0
        · intro _
          exact hres
  · have hres : NewLife h w init = .err "Wrong init size" := by
      simp [NewLife, hnf, hl]
    constructor
    · rw [hres]
      constructor
      · intro ⟨l, hlq⟩
        cases hlq
      · intro ⟨hq, _⟩
        exact absurd hq hl
    · intro _
      exact hres

/-- Witness for the amended C5 at a concrete valid 1×2 pattern. -/
theorem newLife_first_row_check_witness :
    ((∃ l, NewLife 1 2 [[true, false]] = .ok l) ↔
      (((([[true, false]] : List (List Bool))).length : Int) = 1 ∧
        ((([[true, false]] : List (List Bool)).headD []).length : Int) = 2))
    ∧ (¬(((([[true, false]] : List (List Bool))).length : Int) = 1 ∧
          ((([[true, false]] : List (List Bool)).headD []).length : Int) = 2) →
        NewLife 1 2 [[true, false]] = .err "Wrong init size") :=
  newLife_first_row_check 1 2 [[true, false]] (by decide) (by decide)

set_option maxRecDepth 8000

/-- C2 fails on the code: starting from a 2×3 `Life`, one `Next()` call
leaves `cur` with dimensions 2×3 but allocates the fresh `next` as
`NewField(l.cur.w, l.cur.h)`, i.e. transposed to 3×2 — the two buffers no
longer have identical dimensions. -/
theorem next_transposes_dimensions :
    ((NewLife 2 3 (List.replicate 2 (List.replicate 3 false))).toOption.bind Life.Next).map
        (fun l1 => (l1.cur.h, l1.cur.w, l1.next.h, l1.next.w))
      = some (2, 3, 3, 2) := by
  decide

/-- C3 fails on the code: on a 4×5 grid holding a still-life block touching
column 4, the first `Next()` reproduces the block and `NextGen` at (1,4) is
`true`; but the second `Next()` writes into the transposed 5×4 `next`
buffer, whose bounds check silently rejects the writes to column 4 — the
resulting current buffer is 5×4 (rows of length 4 only) and holds `false`
where the computed value was `true`. -/
theorem next_drops_recomputed_cells :
    (((NewLife 4 5 exGrid45).toOption.bind Life.Next).map
        (fun l1 => (decide (l1.cur.cs = exGrid45), l1.cur.NextGen 1 4)) = some (true, some true))
    ∧ ((((NewLife 4 5 exGrid45).toOption.bind Life.Next).bind Life.Next).map
        (fun l2 => (l2.cur.h, l2.cur.w, (l2.cur.cs.getD 1 []).length, l2.cur.cellAt 1 4))
      = some (5, 4, 4, false)) := by
  constructor
  · decide
  · decide

/-- A buffer without a newline byte makes `ReadBytes` hit `io.EOF`. -/
theorem readLine_no_newline {t : List Nat} (ht : 10 ∉ t) : readLine t = none := by
  induction t with
  | nil => rfl
  | cons b bs ih =>
    have hb : b ≠ 10 := fun hq => ht (hq ▸ List.mem_cons_self b bs)
    have hbs : 10 ∉ bs := fun hq => ht (List.mem_cons_of_mem b hq)
    simp only [readLine, if_neg hb, ih hbs]

/-- `ReadBytes` on a buffer starting with a newline-free line returns that
line, terminator included, plus the rest. -/
theorem readLine_append {l rest : List Nat} (hl : 10 ∉ l) :
    readLine (l ++ 10 :: rest) = some (l ++ [10], rest) := by
  induction l with
  | nil => simp [readLine]
  | cons b bs ih =>
    have hb : b ≠ 10 := fun hq => hl (hq ▸ List.mem_cons_self b bs)
    have hbs : 10 ∉ bs := fun hq => hl (List.mem_cons_of_mem b hq)
    show readLine (b :: (bs ++ 10 :: rest)) = _
    rw [readLine, if_neg hb, ih hbs]
    rfl

/-- The line-collecting loop stops with an empty result at `io.EOF`. -/
theorem collectRows_none {W : Nat} {buf : List Nat} (h : readLine buf = none) :
    collectRows W buf = .ok [] := by
  rw [collectRows]
  split
  · rfl
  · rename_i l rest heq
    rw [h] at heq
    cases heq

/-- One iteration of the line-collecting loop. -/
theorem collectRows_cons {W : Nat} {buf l rest : List Nat}
    (h : readLine buf = some (l, rest)) :
    collectRows W buf =
      if l.length ≠ W then .err "column size is not appropriate"
      else match collectRows W rest with
        | .ok rows => .ok (bytesToBool l :: rows)
        | .err e => .err e
        | .crash => .crash := by
  rw [collectRows]
  split
  · rename_i heq
    rw [h] at heq
    cases heq
  · rename_i l2 rest2 heq
    rw [h] at heq
    injection heq with heq1
    injection heq1 with heql heqr
    subst heql
    subst heqr
    rfl

/-- The line-collecting loop on equal-width terminated lines followed by a
newline-free tail returns exactly those lines (the tail is dropped). -/
theorem collectRows_lines (W : Nat) (ls : List (List Nat)) (t : List Nat)
    (hnl : ∀ l ∈ ls, 10 ∉ l) (hlen : ∀ l ∈ ls, l.length + 1 = W)
    (ht : readLine t = none) :
    collectRows W (linesJoin ls ++ t) = .ok (ls.map (fun l => bytesToBool (l ++ [10]))) := by
  induction ls with
  | nil =>
    simp only [linesJoin, List.map_nil, List.join_nil, List.nil_append]
    exact collectRows_none ht
  | cons l0 rest ih =>
    have h0 : 10 ∉ l0 := hnl l0 (List.mem_cons_self l0 rest)
    have hbuf : linesJoin (l0 :: rest) ++ t = l0 ++ 10 :: (linesJoin rest ++ t) := by
      simp [linesJoin]
    rw [hbuf, collectRows_cons (readLine_append h0)]
    have hW : (l0 ++ [10]).length = W := by
      have := hlen l0 (List.mem_cons_self l0 rest)
      simp only [List.length_append, List.length_cons, List.length_nil]
      omega
    rw [if_neg (fun hq => hq hW)]
    rw [ih (fun l hl => hnl l (List.mem_cons_of_mem l0 hl))
      (fun l hl => hlen l (List.mem_cons_of_mem l0 hl))]
    rfl

/-- On a buffer of equal-width terminated lines followed by a newline-free
tail, the loader succeeds with exactly those lines as the grid. -/
theorem loader_ok (ls : List (List Nat)) (t : List Nat)
    (hls : ls ≠ []) (hnl : ∀ l ∈ ls, 10 ∉ l)
    (heq : ∀ l ∈ ls, l.length = (ls.headD []).length)
    (ht : readLine t = none) :
    ∃ life, NewLifeFromBytes (linesJoin ls ++ t) = .ok life
      ∧ life.cur.h = (ls.length : Int)
      ∧ life.cur.w = ((ls.headD []).length + 1 : Int)
      ∧ life.cur.cs = ls.map (fun l => bytesToBool (l ++ [10]))
      ∧ life.gen = 0 := by
  cases ls with
  | nil => exact absurd rfl hls
  | cons l0 rest =>
    have h0 : 10 ∉ l0 := hnl l0 (List.mem_cons_self l0 rest)
    have hbuf : linesJoin (l0 :: rest) ++ t = l0 ++ 10 :: (linesJoin rest ++ t) := by
      simp [linesJoin]
    have hcoll : collectRows (l0 ++ [10]).length (linesJoin rest ++ t)
        = .ok (rest.map (fun l => bytesToBool (l ++ [10]))) := by
      apply collectRows_lines
      · exact fun l hl => hnl l (List.mem_cons_of_mem l0 hl)
      · intro l hl
        have := heq l (List.mem_cons_of_mem l0 hl)
        simp only [List.headD_cons] at this
        simp only [List.length_append, List.length_cons, List.length_nil]
        omega
      · exact ht
    rw [NewLifeFromBytes, hbuf, readLine_append h0]
    dsimp only
    rw [hcoll]
    dsimp only
    set init : List (List Bool) :=
      bytesToBool (l0 ++ [10]) :: rest.map (fun l => bytesToBool (l ++ [10])) with hinit
    have hlen0 : (bytesToBool (l0 ++ [10])).length = l0.length + 1 := by
      simp [bytesToBool]
    have hnres : NewLife (init.length : Int) ((l0 ++ [10]).length : Int) init =
        .ok { cur := { blankField init.length (l0 ++ [10]).length with cs := init },
              next := blankField init.length (l0 ++ [10]).length, gen := 0 } := by
      simp only [NewLife, newField_nat]
      rw [if_neg (fun hq => hq rfl)]
      rw [hinit]
      rw [if_neg (fun hq => hq (by simp [bytesToBool]))]
    rw [hnres]
    refine ⟨_, rfl, ?_, ?_, ?_, rfl⟩
    · show ((init.length : Nat) : Int) = _
      simp [hinit]
    · show (((l0 ++ [10]).length : Int)) = ((((l0 :: rest).headD []).length : Int) + 1)
      simp
    · show init = _
      simp [hinit]

/-- C6: loading from text: with no newline-terminated line the loader fails
(the empty input in particular); two terminated lines of unequal
terminator-inclusive length fail with the malformed-input error; and `H`
equal-width terminated lines produce an `H × W` grid (`W` the
terminator-inclusive length) whose alive cells are exactly the positions of
the glyph `'o'` (byte 111) — the terminator and every other byte are dead,
as `bytesToBool` maps a byte to `true` iff it is 111. -/
theorem loader_spec (l1 l2 : List Nat) (ls : List (List Nat))
    (h1 : 10 ∉ l1) (h2 : 10 ∉ l2) (hne : l1.length ≠ l2.length)
    (hls : ls ≠ []) (hnl : ∀ l ∈ ls, 10 ∉ l)
    (heq : ∀ l ∈ ls, l.length = (ls.headD []).length) :
    NewLifeFromBytes [] = .err "EOF"
    ∧ NewLifeFromBytes (l1 ++ 10 :: (l2 ++ [10])) = .err "column size is not appropriate"
    ∧ ∃ life, NewLifeFromBytes (linesJoin ls) = .ok life
        ∧ life.cur.h = (ls.length : Int)
        ∧ life.cur.w = ((ls.headD []).length + 1 : Int)
        ∧ life.cur.cs = ls.map (fun l => bytesToBool (l ++ [10]))
        ∧ life.gen = 0 := by
  refine ⟨rfl, ?_, ?_⟩
  · rw [NewLifeFromBytes, readLine_append h1]
    dsimp only
    have hr2 : readLine (l2 ++ [10]) = some (l2 ++ [10], []) := by
      have := @readLine_append l2 [] h2
      simpa using this
    rw [collectRows_cons hr2]
    rw [if_pos (by simp; omega)]
  · have := loader_ok ls [] hls hnl heq rfl
    simpa using this

/-- Witness for C6 with concrete lines: first line `"o"`, mismatching second
line `"  "`, and the single-line grid `["o"]`. -/
theorem loader_spec_witness :
    NewLifeFromBytes [] = .err "EOF"
    ∧ NewLifeFromBytes ([111] ++ 10 :: ([32, 32] ++ [10])) = .err "column size is not appropriate"
    ∧ ∃ life, NewLifeFromBytes (linesJoin [[111]]) = .ok life
        ∧ life.cur.h = (([[111]] : List (List Nat)).length : Int)
        ∧ life.cur.w = ((([[111]] : List (List Nat)).headD []).length + 1 : Int)
        ∧ life.cur.cs = ([[111]] : List (List Nat)).map (fun l => bytesToBool (l ++ [10]))
        ∧ life.gen = 0 :=
  loader_spec [111] [32, 32] [[111]] (by decide) (by decide) (by decide) (by decide)
    (by decide) (by decide)

/-- C9: a final line not terminated by a newline (after at least one
terminated line) is silently excluded: the load succeeds, equals the load of
the terminated lines alone, and the height counts only terminated lines. -/
theorem trailing_line_dropped (ls : List (List Nat)) (t : List Nat)
    (hls : ls ≠ []) (hnl : ∀ l ∈ ls, 10 ∉ l)
    (heq : ∀ l ∈ ls, l.length = (ls.headD []).length)
    (ht : t ≠ []) (htn : 10 ∉ t) :
    NewLifeFromBytes (linesJoin ls ++ t) = NewLifeFromBytes (linesJoin ls)
    ∧ ∃ life, NewLifeFromBytes (linesJoin ls ++ t) = .ok life
        ∧ life.cur.h = (ls.length : Int)
        ∧ life.cur.cs = ls.map (fun l => bytesToBool (l ++ [10])) := by
  constructor
  · cases ls with
    | nil => exact absurd rfl hls
    | cons l0 rest =>
      have h0 : 10 ∉ l0 := hnl l0 (List.mem_cons_self l0 rest)
      have hbuf1 : linesJoin (l0 :: rest) ++ t = l0 ++ 10 :: (linesJoin rest ++ t) := by
        simp [linesJoin]
      have hbuf2 : linesJoin (l0 :: rest) = l0 ++ 10 :: linesJoin rest := by
        simp [linesJoin]
      have hlenr : ∀ l ∈ rest, l.length + 1 = (l0 ++ [10]).length := by
        intro l hl
        have := heq l (List.mem_cons_of_mem l0 hl)
        simp only [List.headD_cons] at this
        simp only [List.length_append, List.length_cons, List.length_nil]
        omega
      have hnlr : ∀ l ∈ rest, 10 ∉ l := fun l hl => hnl l (List.mem_cons_of_mem l0 hl)
      have hcoll1 : collectRows (l0 ++ [10]).length (linesJoin rest ++ t)
          = .ok (rest.map (fun l => bytesToBool (l ++ [10]))) :=
        collectRows_lines _ rest t hnlr hlenr (readLine_no_newline htn)
      have hcoll2 : collectRows (l0 ++ [10]).length (linesJoin rest)
          = .ok (rest.map (fun l => bytesToBool (l ++ [10]))) := by
        have := collectRows_lines (l0 ++ [10]).length rest [] hnlr hlenr rfl
        simpa using this
      rw [NewLifeFromBytes, NewLifeFromBytes, hbuf1, hbuf2,
        readLine_append h0, readLine_append h0]
      dsimp only
      rw [hcoll1, hcoll2]
  · obtain ⟨life, hrun, hh, hw, hcs, hgen⟩ :=
      loader_ok ls t hls hnl heq (readLine_no_newline htn)
    exact ⟨life, hrun, hh, hcs⟩

/-- Witness for C9: one terminated line `"o"` followed by the unterminated
byte `' '`. -/
theorem trailing_line_dropped_witness :
    NewLifeFromBytes (linesJoin [[111]] ++ [32]) = NewLifeFromBytes (linesJoin [[111]])
    ∧ ∃ life, NewLifeFromBytes (linesJoin [[111]] ++ [32]) = .ok life
        ∧ life.cur.h = (([[111]] : List (List Nat)).length : Int)
        ∧ life.cur.cs = ([[111]] : List (List Nat)).map (fun l => bytesToBool (l ++ [10])) :=
  trailing_line_dropped [[111]] [32] (by decide) (by decide) (by decide) (by decide) (by decide)

/-- The inner loop of `Life.Next` over a row of in-bounds column indices
succeeds and writes the computed values into exactly those cells. -/
theorem writeRow_ok {cur fld : Field} {n m : Nat} (hs : fld.ShapeN n m) {i : Nat} (hi : i < n)
    (g : Nat → Bool) (js : List Nat) (hjs : ∀ j ∈ js, j < m)
    (hng : ∀ j ∈ js, cur.NextGen (i : Int) (j : Int) = some (g j)) :
    ∃ fld2, writeRow cur fld i js = some fld2 ∧ fld2.ShapeN n m ∧
      ∀ i2 j2 : Nat, fld2.cellN i2 j2 =
        if i2 = i ∧ j2 ∈ js then g j2 else fld.cellN i2 j2 := by
  induction js generalizing fld with
  | nil =>
    refine ⟨fld, rfl, hs, fun i2 j2 => ?_⟩
    simp
  | cons j rest ih =>
    have hj : j < m := hjs j (List.mem_cons_self j rest)
    have hng0 := hng j (List.mem_cons_self j rest)
    obtain ⟨hsh1, hcells1⟩ := setIgnore_shape hs hi hj (g j)
    obtain ⟨fld2, hrun, hsh2, hcells2⟩ := ih hsh1
      (fun q hq => hjs q (List.mem_cons_of_mem j hq))
      (fun q hq => hng q (List.mem_cons_of_mem j hq))
    refine ⟨fld2, ?_, hsh2, ?_⟩
    · rw [writeRow, hng0]
      exact hrun
    · intro i2 j2
      rw [hcells2 i2 j2, hcells1 i2 j2]
      by_cases hii : i2 = i
      · subst hii
        by_cases hjr : j2 ∈ rest
        · simp [hjr]
        · by_cases hjj : j2 = j
          · subst hjj
            simp [hjr]
          · have h1 : ¬(i2 = i2 ∧ j2 ∈ rest) := fun hq => hjr hq.2
            have h2 : ¬(i2 = i2 ∧ j2 = j) := fun hq => hjj hq.2
            have h3 : ¬(i2 = i2 ∧ j2 ∈ j :: rest) := by
              intro hq
              rcases List.mem_cons.mp hq.2 with hx | hx
              · exact hjj hx
              · exact hjr hx
            rw [if_neg h1, if_neg h2, if_neg h3]
      · have h1 : ¬(i2 = i ∧ j2 ∈ rest) := fun hq => hii hq.1
        have h2 : ¬(i2 = i ∧ j2 = j) := fun hq => hii hq.1
        have h3 : ¬(i2 = i ∧ j2 ∈ j :: rest) := fun hq => hii hq.1
        rw [if_neg h1, if_neg h2, if_neg h3]

/-- The outer loop of `Life.Next` over rows of width `m`, starting at row
index `k`, succeeds and fills exactly the visited cells with the computed
values. -/
theorem writeRows_ok {cur : Field} {n m : Nat} (g : Nat → Nat → Bool) :
    ∀ (rows : List (List Bool)) (k : Nat) (fld : Field), fld.ShapeN n m →
      k + rows.length ≤ n →
      (∀ r ∈ rows, r.length = m) →
      (∀ i2, k ≤ i2 → i2 < k + rows.length →
        ∀ j2, j2 < m → cur.NextGen (i2 : Int) (j2 : Int) = some (g i2 j2)) →
      ∃ fld2, writeRows cur fld k rows = some fld2 ∧ fld2.ShapeN n m ∧
        ∀ i2 j2 : Nat, fld2.cellN i2 j2 =
          if k ≤ i2 ∧ i2 < k + rows.length ∧ j2 < m then g i2 j2 else fld.cellN i2 j2 := by
  intro rows
  induction rows with
  | nil =>
    intro k fld hs _ _ _
    refine ⟨fld, rfl, hs, fun i2 j2 => ?_⟩
    rw [if_neg (by simp only [List.length_nil]; omega)]
  | cons r rest ih =>
    intro k fld hs hk hrows hng
    have hrlen : r.length = m := hrows r (List.mem_cons_self r rest)
    have hkn : k < n := by
      simp only [List.length_cons] at hk
      omega
    obtain ⟨fld1, hrun1, hsh1, hcells1⟩ := writeRow_ok hs hkn (g k) (List.range r.length)
      (fun j hj => by
        rw [hrlen] at hj
        exact List.mem_range.mp hj)
      (fun j hj => hng k (le_refl k) (by simp) j (by
        rw [List.mem_range, hrlen] at hj
        exact hj))
    obtain ⟨fld2, hrun2, hsh2, hcells2⟩ := ih (k + 1) fld1 hsh1
      (by simp only [List.length_cons] at hk; omega)
      (fun q hq => hrows q (List.mem_cons_of_mem r hq))
      (fun i2 h1 h2 j2 hj2 => hng i2 (by omega)
        (by simp only [List.length_cons]; omega) j2 hj2)
    refine ⟨fld2, ?_, hsh2, ?_⟩
    · rw [writeRows, hrun1]
      exact hrun2
    · intro i2 j2
      rw [hcells2 i2 j2]
      by_cases hmid : k + 1 ≤ i2 ∧ i2 < k + 1 + rest.length ∧ j2 < m
      · rw [if_pos hmid, if_pos (by simp only [List.length_cons]; omega)]
      · rw [if_neg hmid, hcells1 i2 j2]
        by_cases hrow0 : i2 = k ∧ j2 ∈ List.range r.length
        · have hj2m : j2 < m := by
            have := List.mem_range.mp hrow0.2
            omega
          rw [if_pos hrow0, if_pos (by simp only [List.length_cons]; omega), hrow0.1]
        · rw [if_neg hrow0, if_neg (by
            intro hq
            simp only [List.length_cons] at hq
            apply hrow0
            constructor
            · omega
            · rw [List.mem_range, hrlen]
              omega)]

/-- One `Life.Next` call from a state whose two buffers agree on a positive
shape `n × m`: it succeeds, the new current buffer holds the spec's next
generation of the old one, and the new spare buffer is allocated with
transposed dimensions `m × n`. -/
theorem next_ok {l : Life} {n m : Nat}
    (hcur : l.cur.ShapeN n m) (hnext : l.next = blankField n m)
    (hn : 0 < n) (hm : 0 < m) :
    ∃ l2, l.Next = some l2
      ∧ l2.cur.ShapeN n m
      ∧ (∀ i2 j2 : Nat, i2 < n → j2 < m →
          l2.cur.cellN i2 j2 = Spec.willBeAliveNext l.cur (i2 : Int) (j2 : Int))
      ∧ l2.next = blankField m n
      ∧ l2.gen = l.gen + 1 := by
  have hwf : l.cur.WF := shape_wf hcur hn hm
  have hnsh : l.next.ShapeN n m := by
    rw [hnext]
    refine ⟨rfl, rfl, by simp [blankField], fun row hrow => ?_⟩
    simp only [blankField] at hrow
    rw [List.eq_of_mem_replicate hrow]
    simp
  obtain ⟨fld2, hrun, hsh2, hcells2⟩ := writeRows_ok
    (fun i j => Spec.willBeAliveNext l.cur (i : Int) (j : Int)) l.cur.cs 0 l.next hnsh
    (by rw [hcur.2.2.1]; omega)
    hcur.2.2.2
    (fun i2 _ h2 j2 hj2 => by
      apply nextGen_eq_spec hwf
      · omega
      · rw [hcur.1]
        have hlt : i2 < l.cur.cs.length := by omega
        rw [hcur.2.2.1] at hlt
        exact_mod_cast hlt
      · omega
      · rw [hcur.2.1]
        exact_mod_cast hj2)
  have hnf2 : NewField fld2.w fld2.h = .ok (blankField m n) := by
    rw [hsh2.1, hsh2.2.1]
    exact newField_nat m n
  refine ⟨{ cur := fld2, next := blankField m n, gen := l.gen + 1 }, ?_, hsh2, ?_, rfl, rfl⟩
  · rw [Life.Next, hrun]
    dsimp only
    rw [hnf2]
  · intro i2 j2 h1 h2
    rw [hcells2 i2 j2, if_pos ⟨by omega, by rw [hcur.2.2.1]; omega, h2⟩]

theorem mkGrid_len (n m : Nat) (f : Nat → Nat → Bool) : (mkGrid n m f).length = n := by
  simp [mkGrid]

theorem mkGrid_rows (n m : Nat) (f : Nat → Nat → Bool) :
    ∀ row ∈ mkGrid n m f, row.length = m := by
  intro row hrow
  simp only [mkGrid, List.mem_map] at hrow
  obtain ⟨i, _, rfl⟩ := hrow
  simp

theorem mkGrid_cell {n m : Nat} (f : Nat → Nat → Bool) {i j : Nat} (hi : i < n) (hj : j < m) :
    ((mkGrid n m f).getD i []).getD j false = f i j := by
  have hrow : (mkGrid n m f).getD i [] = (List.range m).map (fun j => f i j) := by
    rw [List.getD_eq_get?]
    unfold mkGrid
    rw [List.get?_map, List.get?_range hi]
    rfl
  rw [hrow, List.getD_eq_get?, List.get?_map, List.get?_range hj]
  rfl

/-- A cell array of shape `n × m` is determined by its `getD`-lookups. -/
theorem grid_ext {cs : List (List Bool)} {n m : Nat} {f : Nat → Nat → Bool}
    (hlen : cs.length = n) (hrows : ∀ row ∈ cs, row.length = m)
    (hcell : ∀ i j : Nat, i < n → j < m → (cs.getD i []).getD j false = f i j) :
    cs = mkGrid n m f := by
  have hg : (mkGrid n m f).length = n := mkGrid_len n m f
  apply List.ext_get (by rw [hlen, hg])
  intro i h1 h2
  have hi : i < n := by omega
  have hrq : (mkGrid n m f).get? i = some ((List.range m).map (fun j => f i j)) := by
    unfold mkGrid
    rw [List.get?_map, List.get?_range hi]
    rfl
  have hr : (mkGrid n m f).get ⟨i, h2⟩ = (List.range m).map (fun j => f i j) := by
    have hq := List.get?_eq_get h2
    rw [hrq] at hq
    exact (Option.some_inj.mp hq).symm
  rw [hr]
  have hrowlen : (cs.get ⟨i, h1⟩).length = m := hrows _ (List.get_mem cs i h1)
  apply List.ext_get (by
    simp only [List.length_map, List.length_range]
    exact hrowlen)
  intro j hj1 hj2
  have hjm : j < m := by omega
  have heq2 : ((List.range m).map (fun j => f i j)).get? j = some (f i j) := by
    rw [List.get?_map, List.get?_range hjm]
    rfl
  have he : ((List.range m).map (fun j => f i j)).get ⟨j, hj2⟩ = f i j := by
    have hq := List.get?_eq_get hj2
    rw [heq2] at hq
    exact (Option.some_inj.mp hq).symm
  rw [he]
  have hc := hcell i j hi hjm
  have hgd : cs.getD i [] = cs.get ⟨i, h1⟩ := by
    rw [List.getD_eq_get?, List.get?_eq_get h1]
    rfl
  rw [hgd] at hc
  have hgd2 : (cs.get ⟨i, h1⟩).getD j false = (cs.get ⟨i, h1⟩).get ⟨j, hj1⟩ := by
    rw [List.getD_eq_get?, List.get?_eq_get hj1]
    rfl
  rw [hgd2] at hc
  exact hc

/-- `-1 mod h` (Euclidean) is `h - 1`. -/
theorem neg_one_emod {h : Int} (hh : 0 < h) : (-1 : Int).emod h = h - 1 := by
  have h3 : h - 1 + h * (-1) = -1 := by ring
  have h4 : (h - 1 + h * (-1)).emod h = (h - 1).emod h :=
    Int.add_mul_emod_self_left (h - 1) h (-1)
  have h5 : (h - 1).emod h = h - 1 := Int.emod_eq_of_lt (by omega) (by omega)
  rw [← h3, h4, h5]

/-- The 6-cell beacon phase vanishes outside rows/columns 1–4. -/
theorem beaconA_support (x y : Int) (h : ¬(1 ≤ x ∧ x ≤ 4 ∧ 1 ≤ y ∧ y ≤ 4)) :
    beaconA x y = false := by
  rw [beaconA, decide_eq_false_iff_not]
  intro hmem
  simp only [beaconCellsA, List.mem_cons, List.not_mem_nil, or_false, Prod.mk.injEq] at hmem
  rcases hmem with ⟨hx, hy⟩ | ⟨hx, hy⟩ | ⟨hx, hy⟩ | ⟨hx, hy⟩ | ⟨hx, hy⟩ | ⟨hx, hy⟩ <;> omega

/-- The 8-cell beacon phase vanishes outside rows/columns 1–4. -/
theorem beaconB_support (x y : Int) (h : ¬(1 ≤ x ∧ x ≤ 4 ∧ 1 ≤ y ∧ y ≤ 4)) :
    beaconB x y = false := by
  rw [beaconB, decide_eq_false_iff_not]
  intro hmem
  simp only [beaconCellsB, List.mem_cons, List.not_mem_nil, or_false, Prod.mk.injEq] at hmem
  rcases hmem with ⟨hx, hy⟩ | ⟨hx, hy⟩ | ⟨hx, hy⟩ | ⟨hx, hy⟩ | ⟨hx, hy⟩ | ⟨hx, hy⟩ |
    ⟨hx, hy⟩ | ⟨hx, hy⟩ <;> omega

/-- On an `n × n` torus (`n ≥ 6`) holding a pattern supported in rows and
columns 1–4, the spec's wraparound lookup agrees with the plain pattern at
every position of `[-1, n] × [-1, n]`. -/
theorem support_isAlive {n : Nat} (hn : 6 ≤ n) {p : Int → Int → Bool}
    (hp : ∀ x y : Int, ¬(1 ≤ x ∧ x ≤ 4 ∧ 1 ≤ y ∧ y ≤ 4) → p x y = false)
    {f : Field} (hcs : f.cs = mkGrid n n (fun i j => p (i : Int) (j : Int)))
    (hh : f.h = (n : Int)) (hw : f.w = (n : Int))
    {x y : Int} (hx : -1 ≤ x) (hx2 : x ≤ (n : Int)) (hy : -1 ≤ y) (hy2 : y ≤ (n : Int)) :
    Spec.isAlive f x y = p x y := by
  have hn0 : (0 : Int) < (n : Int) := by
    have : (6 : Int) ≤ (n : Int) := by exact_mod_cast hn
    omega
  have hn6 : (6 : Int) ≤ (n : Int) := by exact_mod_cast hn
  rw [spec_isAlive_eq (by rw [hh]; omega) (by rw [hw]; omega)]
  rw [hh, hw]
  have hex : 0 ≤ x.emod (n : Int) := Int.emod_nonneg x (by omega)
  have hex2 : x.emod (n : Int) < (n : Int) := Int.emod_lt_of_pos x hn0
  have hey : 0 ≤ y.emod (n : Int) := Int.emod_nonneg y (by omega)
  have hey2 : y.emod (n : Int) < (n : Int) := Int.emod_lt_of_pos y hn0
  have hcell : f.cellAt (x.emod (n : Int)) (y.emod (n : Int))
      = p ((x.emod (n : Int)).toNat : Int) ((y.emod (n : Int)).toNat : Int) := by
    rw [cellAt_eq_cellN, Field.cellN, hcs]
    exact mkGrid_cell _ (by omega) (by omega)
  rw [hcell, Int.toNat_of_nonneg hex, Int.toNat_of_nonneg hey]
  by_cases hxr : 0 ≤ x ∧ x < (n : Int)
  · have hxe : x.emod (n : Int) = x := Int.emod_eq_of_lt hxr.1 hxr.2
    by_cases hyr : 0 ≤ y ∧ y < (n : Int)
    · have hye : y.emod (n : Int) = y := Int.emod_eq_of_lt hyr.1 hyr.2
      rw [hxe, hye]
    · have hyy : y = -1 ∨ y = (n : Int) := by omega
      have hyv : ¬(1 ≤ y.emod (n : Int) ∧ y.emod (n : Int) ≤ 4) := by
        rcases hyy with rfl | rfl
        · rw [neg_one_emod hn0]
          omega
        · have hms : ((n : Int)).emod (n : Int) = 0 := Int.emod_self
          rw [hms]
          omega
      rw [hp _ _ (fun hq => hyv ⟨hq.2.2.1, hq.2.2.2⟩),
        hp x y (fun hq => by rcases hyy with rfl | rfl <;> omega)]
  · have hxx : x = -1 ∨ x = (n : Int) := by omega
    have hxv : ¬(1 ≤ x.emod (n : Int) ∧ x.emod (n : Int) ≤ 4) := by
      rcases hxx with rfl | rfl
      · rw [neg_one_emod hn0]
        omega
      · have hms : ((n : Int)).emod (n : Int) = 0 := Int.emod_self
        rw [hms]
        omega
    rw [hp _ _ (fun hq => hxv ⟨hq.1, hq.2.1⟩),
      hp x y (fun hq => by rcases hxx with rfl | rfl <;> omega)]

/-- Bounds of the 8 neighbor offsets. -/
theorem nbrOffsets_bounds : ∀ q ∈ Spec.nbrOffsets, -1 ≤ q.1 ∧ q.1 ≤ 1 ∧ -1 ≤ q.2 ∧ q.2 ≤ 1 := by
  decide

/-- On an `n × n` torus (`n ≥ 6`) holding a pattern supported in rows and
columns 1–4, the spec's transition at any in-bounds cell equals the plain
(infinite-plane) Game-of-Life step of the pattern. -/
theorem spec_step_eq {n : Nat} (hn : 6 ≤ n) {p : Int → Int → Bool}
    (hp : ∀ x y : Int, ¬(1 ≤ x ∧ x ≤ 4 ∧ 1 ≤ y ∧ y ≤ 4) → p x y = false)
    {f : Field} (hcs : f.cs = mkGrid n n (fun i j => p (i : Int) (j : Int)))
    (hh : f.h = (n : Int)) (hw : f.w = (n : Int))
    {i j : Int} (hi : 0 ≤ i) (hi2 : i < (n : Int)) (hj : 0 ≤ j) (hj2 : j < (n : Int)) :
    Spec.willBeAliveNext f i j = intStep p i j := by
  have hcount : Spec.neighborCount f i j
      = (Spec.nbrOffsets.filter (fun q => p (i + q.1) (j + q.2))).length := by
    unfold Spec.neighborCount
    congr 1
    apply List.filter_congr
    intro q hq
    have hqb := nbrOffsets_bounds q hq
    exact support_isAlive hn hp hcs hh hw (by omega) (by omega) (by omega) (by omega)
  unfold Spec.willBeAliveNext intStep
  rw [hcount, support_isAlive hn hp hcs hh hw (by omega) (by omega) (by omega) (by omega)]

/-- Far away from the support, the plain step produces a dead cell. -/
theorem intStep_far {p : Int → Int → Bool}
    (hp : ∀ x y : Int, ¬(1 ≤ x ∧ x ≤ 4 ∧ 1 ≤ y ∧ y ≤ 4) → p x y = false)
    {i j : Int} (h : 6 ≤ i ∨ 6 ≤ j) (hi : 0 ≤ i) (hj : 0 ≤ j) :
    intStep p i j = false := by
  have hfil : (Spec.nbrOffsets.filter (fun q => p (i + q.1) (j + q.2))) = [] := by
    rw [List.filter_eq_nil_iff]
    intro q hq
    have hqb := nbrOffsets_bounds q hq
    rw [hp _ _ (by omega)]
    simp
  unfold intStep
  rw [hfil, hp i j (by omega)]
  rfl

/-- One plain step takes the 6-cell beacon phase to the 8-cell phase. -/
theorem intStep_beaconA (i j : Int) (hi : 0 ≤ i) (hj : 0 ≤ j) :
    intStep beaconA i j = beaconB i j := by
  by_cases hfar : 6 ≤ i ∨ 6 ≤ j
  · rw [intStep_far beaconA_support hfar hi hj, beaconB_support i j (by omega)]
  · push_neg at hfar
    have hi5 : i ≤ 5 := by omega
    have hj5 : j ≤ 5 := by omega
    interval_cases i <;> interval_cases j <;> decide

/-- One plain step takes the 8-cell beacon phase back to the 6-cell phase. -/
theorem intStep_beaconB (i j : Int) (hi : 0 ≤ i) (hj : 0 ≤ j) :
    intStep beaconB i j = beaconA i j := by
  by_cases hfar : 6 ≤ i ∨ 6 ≤ j
  · rw [intStep_far beaconB_support hfar hi hj, beaconA_support i j (by omega)]
  · push_neg at hfar
    have hi5 : i ≤ 5 := by omega
    have hj5 : j ≤ 5 := by omega
    interval_cases i <;> interval_cases j <;> decide

/-- C7: on any `n × n` torus with `n ≥ 6`, a `Life` initialized with the
6-cell beacon pattern (alive cells (1,1), (1,2), (2,1), (3,4), (4,3), (4,4))
returns to its initial configuration after exactly 2 `Next()` calls: both
calls succeed, the current buffer after 2 calls equals the initial pattern,
and after 1 call it differs from it. -/
theorem beacon_period_two (n : Nat) (hn : 6 ≤ n) :
    ∃ l0 l1 l2, NewLife (n : Int) (n : Int) (beaconGrid n) = .ok l0
      ∧ l0.Next = some l1 ∧ l1.Next = some l2
      ∧ l0.cur.cs = beaconGrid n
      ∧ l2.cur.cs = beaconGrid n
      ∧ l1.cur.cs ≠ beaconGrid n := by
  have hn0 : 0 < n := by omega
  have hlen : (beaconGrid n).length = n := mkGrid_len n n _
  obtain ⟨r0, rest, hcons⟩ : ∃ r0 rest, beaconGrid n = r0 :: rest := by
    cases hg : beaconGrid n with
    | nil =>
      rw [hg] at hlen
      simp at hlen
      omega
    | cons a b => exact ⟨a, b, rfl⟩
  have hr0len : r0.length = n := by
    apply mkGrid_rows n n _ r0
    show r0 ∈ beaconGrid n
    rw [hcons]
    exact List.mem_cons_self r0 rest
  have hok : NewLife (n : Int) (n : Int) (beaconGrid n) =
      .ok { cur := { blankField n n with cs := beaconGrid n },
            next := blankField n n, gen := 0 } := by
    unfold NewLife
    rw [newField_nat n n]
    dsimp only
    rw [if_neg (by simp [hlen]), hcons]
    dsimp only
    rw [if_neg (by simp [hr0len])]
  have hshape0 : ({ blankField n n with cs := beaconGrid n } : Field).ShapeN n n :=
    ⟨rfl, rfl, hlen, mkGrid_rows n n _⟩
  obtain ⟨l1, hrun1, hsh1, hcells1, hnext1, hgen1⟩ :=
    next_ok (l := { cur := { blankField n n with cs := beaconGrid n },
                    next := blankField n n, gen := 0 })
      hshape0 rfl hn0 hn0
  have hcs1 : l1.cur.cs = beaconGridB n := by
    apply grid_ext hsh1.2.2.1 hsh1.2.2.2
    intro i j hi hj
    have hc := hcells1 i j hi hj
    have hstep : Spec.willBeAliveNext
        ({ blankField n n with cs := beaconGrid n } : Field) (i : Int) (j : Int)
        = intStep beaconA (i : Int) (j : Int) := by
      exact spec_step_eq hn beaconA_support rfl rfl rfl
        (Int.natCast_nonneg i) (by exact_mod_cast hi)
        (Int.natCast_nonneg j) (by exact_mod_cast hj)
    show _ = beaconB (i : Int) (j : Int)
    rw [← intStep_beaconA (i : Int) (j : Int) (Int.natCast_nonneg i) (Int.natCast_nonneg j)]
    rw [← hstep]
    exact hc
  obtain ⟨l2, hrun2, hsh2, hcells2, hnext2, hgen2⟩ :=
    next_ok (l := l1) hsh1 hnext1 hn0 hn0
  have hcs2 : l2.cur.cs = beaconGrid n := by
    apply grid_ext hsh2.2.2.1 hsh2.2.2.2
    intro i j hi hj
    have hc := hcells2 i j hi hj
    have hstep : Spec.willBeAliveNext l1.cur (i : Int) (j : Int)
        = intStep beaconB (i : Int) (j : Int) :=
      spec_step_eq hn beaconB_support hcs1 hsh1.1 hsh1.2.1
        (Int.natCast_nonneg i) (by exact_mod_cast hi)
        (Int.natCast_nonneg j) (by exact_mod_cast hj)
    show _ = beaconA (i : Int) (j : Int)
    rw [← intStep_beaconB (i : Int) (j : Int) (Int.natCast_nonneg i) (Int.natCast_nonneg j)]
    rw [← hstep]
    exact hc
  have hne : l1.cur.cs ≠ beaconGrid n := by
    rw [hcs1]
    intro hEq
    have h22 := congrArg (fun cs => (cs.getD 2 []).getD 2 false) hEq
    dsimp only at h22
    unfold beaconGridB beaconGrid at h22
    rw [mkGrid_cell _ (by omega) (by omega), mkGrid_cell _ (by omega) (by omega)] at h22
    exact absurd h22 (by decide)
  exact ⟨_, l1, l2, hok, hrun1, hrun2, rfl, hcs2, hne⟩

/-- Witness for C7 at the concrete size `n = 6`. -/
theorem beacon_period_two_witness :
    ∃ l0 l1 l2, NewLife ((6 : Nat) : Int) ((6 : Nat) : Int) (beaconGrid 6) = .ok l0
      ∧ l0.Next = some l1 ∧ l1.Next = some l2
      ∧ l0.cur.cs = beaconGrid 6
      ∧ l2.cur.cs = beaconGrid 6
      ∧ l1.cur.cs ≠ beaconGrid 6 :=
  beacon_period_two 6 (by decide)

/-- C10: `NewLife(0, w, [])` passes the `len(init) != h` test (`0 == 0`) and
then evaluates `len(init[0])` on the empty pattern, which panics instead of
returning the `"Wrong init size"` error. -/
theorem newLife_empty_pattern_crash (w : Int) : NewLife 0 w [] = .crash := by
  have hnf : NewField 0 w = .ok { cs := [], w := w, h := 0 } := by
    unfold NewField
    rw [if_neg (by omega), if_neg (by omega)]
    rfl
  unfold NewLife
  rw [hnf]
  rfl

end Lifegame
